import Mathlib

/-!
Verification of the context/token-budget manager and the artifact-extraction
engine of `claude_projects_enhanced_v14.py`, against the natural-language
specification of the repository.

The Python source is shallowly embedded: pure functions become Lean
functions over `String`/`List Char`, the stateful chat flow becomes an
explicit outcome value, and file I/O is abstracted into a
`String → Option String` content lookup (the spec's "file set as a mapping
from filename to content-or-placeholder").
-/

set_option maxHeartbeats 4000000
set_option maxRecDepth 8192

/-! ## Token estimator (`EnhancedClaudeCLI.estimate_tokens`, lines 1326-1337) -/

/-- The whitespace set of Python's `str.split()` / `str.strip()` / `\s`,
restricted to the ASCII characters the tool ever feeds it. -/
def pyIsSpace (c : Char) : Bool :=
  c = ' ' || c = '\t' || c = '\n' || c = '\r' || c = '\x0b' || c = '\x0c'

/-- Word counter for Python's `len(text.split())`: counts maximal runs of
non-whitespace characters.  The Bool flag records whether the previous
character was part of a word. -/
def cwAux : Bool → List Char → Nat
  | _, [] => 0
  | inWord, c :: cs =>
    if pyIsSpace c then cwAux false cs
    else (if inWord then 0 else 1) + cwAux true cs

/-- The scanner state (`previous character was non-whitespace`) after
processing a list of characters starting from state `b`. -/
def endSt : Bool → List Char → Bool
  | b, [] => b
  | _, c :: cs => endSt (!(pyIsSpace c)) cs

def wordCountL (cs : List Char) : Nat := cwAux false cs

/-- `int((word_count / 0.75 + char_count / 4) / 2)` on the non-negative
exact value equals floor of `(16*w + 3*c) / 24`; the Python float
computation is exact whenever the rational value is an integer (the only
inexact step is `w / 0.75`, which is exact when `3 ∣ w`, and
`(16*w + 3*c) / 24` can only be an integer in that case), so for all
realistically sized inputs `int(...)` agrees with this natural-number
division. -/
def estimateL (cs : List Char) : Nat :=
  (16 * wordCountL cs + 3 * cs.length) / 24

/-- `EnhancedClaudeCLI.estimate_tokens`. -/
def estimate_tokens (text : String) : Nat := estimateL text.data

/-- A block of `n` copies of the letter `x`, used as bulk file/message
content in concrete scenarios. -/
def strX (n : Nat) : String := String.mk (List.replicate n 'x')

theorem data_append (a b : String) : (a ++ b).data = a.data ++ b.data := rfl

theorem cwAux_append (xs : List Char) (b : Bool) (ys : List Char) :
    cwAux b (xs ++ ys) = cwAux b xs + cwAux (endSt b xs) ys := by
  induction xs generalizing b with
  | nil => simp [cwAux, endSt]
  | cons c cs ih =>
    by_cases h : pyIsSpace c <;>
      simp [cwAux, endSt, h, ih, Nat.add_assoc]

theorem endSt_append (b : Bool) (xs ys : List Char) :
    endSt b (xs ++ ys) = endSt (endSt b xs) ys := by
  induction xs generalizing b with
  | nil => rfl
  | cons c cs ih => simp [endSt, ih]

theorem cwAux_replicate (n : Nat) (b : Bool) (c : Char) (hc : pyIsSpace c = false) :
    cwAux b (List.replicate n c) = if n = 0 then 0 else if b then 0 else 1 := by
  induction n generalizing b with
  | zero => simp [cwAux]
  | succ m ih =>
    simp only [List.replicate_succ, cwAux, hc, Bool.false_eq_true, if_false, ih]
    cases m <;> cases b <;> simp

theorem endSt_replicate (n : Nat) (b : Bool) (c : Char) (hc : pyIsSpace c = false) :
    endSt b (List.replicate n c) = if n = 0 then b else true := by
  induction n generalizing b with
  | zero => rfl
  | succ m ih =>
    simp only [List.replicate_succ, endSt, hc, ih]
    cases m <;> simp

/-- Closed form of the estimator on `A ++ x^N ++ B` where `A` ends in
whitespace-or-empty scanner state and `B` is evaluated in in-word state. -/
theorem estimateL_shape (A : List Char) (N : Nat) (hN : 0 < N) (B : List Char)
    (wA wB : Nat) (hwA : cwAux false A = wA) (hA : endSt false A = false)
    (hwB : cwAux true B = wB) :
    estimateL (A ++ (List.replicate N 'x' ++ B)) =
      (16 * (wA + 1 + wB) + 3 * (A.length + N + B.length)) / 24 := by
  have hx : pyIsSpace 'x' = false := by decide
  have hw : cwAux false (A ++ (List.replicate N 'x' ++ B)) = wA + 1 + wB := by
    rw [cwAux_append, cwAux_append, hwA, hA, cwAux_replicate _ _ _ hx,
      endSt_replicate _ _ _ hx]
    have hN' : N ≠ 0 := Nat.pos_iff_ne_zero.mp hN
    simp [hN', hwB, Nat.add_assoc]
  simp only [estimateL, wordCountL, hw, List.length_append, List.length_replicate]
  ring_nf

theorem estimate_strX (n : Nat) (hn : 0 < n) :
    estimate_tokens (strX n) = (16 + 3 * n) / 24 := by
  have h : (strX n).data = [] ++ (List.replicate n 'x' ++ []) := by
    simp [strX]
  rw [estimate_tokens, h, estimateL_shape [] n hn [] 0 0 rfl rfl rfl]
  simp

/-! ## Context assembly (`EnhancedClaudeCLI.do_chat`, lines 715-847, and
`Project.get_project_context`, lines 131-150) -/

/-- The wrapped per-file block `f"\n--- File: {filename} ---\n{content}\n"`
shared by the all-files path (lines 139-145) and the selective path
(line 799). -/
def fileSection (filename content : String) : String :=
  "\n--- File: " ++ filename ++ " ---\n" ++ content ++ "\n"

/-- The `'='*60` separator line. -/
def eqLine : String := String.mk (List.replicate 60 '=')

/-- `"".join(parts)` over a list of parts produced by mapping `f`. -/
def concatMapStr (f : α → String) : List α → String
  | [] => ""
  | a :: l => f a ++ concatMapStr f l

/-- Order used by `sorted(self.files_path.iterdir())`: lexicographic on the
path string, which within one directory is lexicographic on the filename. -/
def fileLe (a b : String × String) : Prop := a.1 ≤ b.1

instance : DecidableRel fileLe := fun a b => inferInstanceAs (Decidable (a.1 ≤ b.1))

instance : IsTotal (String × String) fileLe := ⟨fun a b => le_total a.1 b.1⟩

instance : IsTrans (String × String) fileLe := ⟨fun _ _ _ h1 h2 => le_trans h1 h2⟩

/-- `sorted(...)` is a stable sort keyed by the filename; filenames are
unique within a project, so any sorting algorithm produces the same list. -/
def sortFiles (files : List (String × String)) : List (String × String) :=
  List.insertionSort fileLe files

/-- `Project.get_project_context`: the all-files context string.  The file
set is the mapping filename → retrieved content (text, error placeholder or
binary placeholder, as produced by `get_file_content`). -/
def get_project_context (name : String) (files : List (String × String)) : String :=
  "Project: " ++ name ++ "\n" ++ eqLine ++ "\n" ++ "Files in this project:\n"
    ++ concatMapStr (fun p => fileSection p.1 p.2) (sortFiles files)
    ++ (if files.isEmpty then "(No files in project yet)\n" else "")

/-- Header of the selective-mode context (line 793). -/
def selectiveHeader (name : String) : String :=
  "Project: " ++ name ++ " (Selected Files)\n" ++ eqLine ++ "\n"

/-- Result of the selective-inclusion loop (lines 793-815): the included
filenames, the filenames skipped for budget (line 804), the filenames whose
content lookup failed (line 812), the running token total and the appended
file sections, all in encounter order. -/
structure SelectiveResult where
  included : List String
  skipped : List String
  missing : List String
  contextTokens : Nat
  parts : List String
deriving DecidableEq, Repr

/-- The selective-inclusion loop of `do_chat` (lines 796-813): for each
requested filename in order, look up its content, estimate the wrapped
block, and append it unless `context_tokens + file_tokens +
estimate_tokens(message) > 190000`, in which case the file is skipped and
reported. -/
def selectiveAssemble (gc : String → Option String) (msg : String) :
    List String → Nat → SelectiveResult
  | [], tok => ⟨[], [], [], tok, []⟩
  | f :: fs, tok =>
    match gc f with
    | none =>
      let r := selectiveAssemble gc msg fs tok
      { r with missing := f :: r.missing }
    | some content =>
      let sec := fileSection f content
      let ft := estimate_tokens sec
      if tok + ft + estimate_tokens msg > 190000 then
        let r := selectiveAssemble gc msg fs tok
        { r with skipped := f :: r.skipped }
      else
        let r := selectiveAssemble gc msg fs (tok + ft)
        { r with included := f :: r.included, parts := sec :: r.parts }

/-- The chat mode selected by the command-line options of `do_chat`:
all files (default), `-s file1,file2` (selective), or `-n` (no context). -/
inductive ChatMode
  | allFiles
  | selective (sel : List String)
  | noContext
deriving DecidableEq

/-- Outcome of one `do_chat` invocation up to the model boundary:
`rejectAllFiles` is the early return of lines 823-829 (reporting the
context token estimate), `tooLarge` is the "Request too large" return of
lines 845-847, and `send` means the request reaches the model boundary
with the given context and final token total.  No network call happens in
the first two outcomes. -/
inductive ChatOutcome
  | rejectAllFiles (reportedTokens : Nat)
  | tooLarge (totalTokens : Nat)
  | send (context : String) (totalTokens : Nat)
deriving DecidableEq, Repr

def isTooLarge : ChatOutcome → Bool
  | .tooLarge _ => true
  | _ => false

/-- Lines 839-847: `total_tokens = context_tokens + message_tokens + 2000`;
abort with "Request too large" when `total_tokens > 195000`, otherwise
dispatch to the model boundary. -/
def finalCheck (context : String) (contextTokens : Nat) (msg : String) : ChatOutcome :=
  let total := contextTokens + estimate_tokens msg + 2000
  if total > 195000 then .tooLarge total else .send context total

/-- The context-assembly and budget logic of `EnhancedClaudeCLI.do_chat`
(lines 786-847), for an open project given as a content lookup `gc`
(selective mode) and a file list `files` (all-files mode). -/
def do_chat (name : String) (gc : String → Option String)
    (files : List (String × String)) (mode : ChatMode) (msg : String) : ChatOutcome :=
  match mode with
  | .noContext => finalCheck "" 0 msg
  | .selective sel =>
    let r := selectiveAssemble gc msg sel 0
    finalCheck (selectiveHeader name ++ concatMapStr id r.parts) r.contextTokens msg
  | .allFiles =>
    let context := get_project_context name files
    let ct := estimate_tokens context
    if ct + estimate_tokens msg > 190000 then .rejectAllFiles ct
    else finalCheck context ct msg

/-- The context-token total of the path taken by `do_chat` for each mode. -/
def contextTokensOf (name : String) (gc : String → Option String)
    (files : List (String × String)) (mode : ChatMode) (msg : String) : Nat :=
  match mode with
  | .noContext => 0
  | .selective sel => (selectiveAssemble gc msg sel 0).contextTokens
  | .allFiles => estimate_tokens (get_project_context name files)

/-- The final token total checked at line 845. -/
def finalTotalOf (name : String) (gc : String → Option String)
    (files : List (String × String)) (mode : ChatMode) (msg : String) : Nat :=
  contextTokensOf name gc files mode msg + estimate_tokens msg + 2000

/-- Whether the path taken by `do_chat` reaches the final check at line 839
(in all-files mode the early rejection of line 823 may prevent it). -/
def initialPasses (name : String) (gc : String → Option String)
    (files : List (String × String)) (mode : ChatMode) (msg : String) : Bool :=
  match mode with
  | .allFiles =>
    decide (estimate_tokens (get_project_context name files) + estimate_tokens msg ≤ 190000)
  | _ => true

/-! ## Closed-form token estimates for bulk contents -/

theorem fileSection_data (nm content : String) :
    (fileSection nm content).data
      = ("\n--- File: " ++ nm ++ " ---\n").data ++ (content.data ++ ['\n']) := by
  have h : "\n".data = ['\n'] := rfl
  simp [fileSection, data_append, List.append_assoc, h]

theorem est_fileSection (nm : String) (N : Nat) (hN : 0 < N)
    (w L : Nat) (hw : cwAux false ("\n--- File: " ++ nm ++ " ---\n").data = w)
    (he : endSt false ("\n--- File: " ++ nm ++ " ---\n").data = false)
    (hL : ("\n--- File: " ++ nm ++ " ---\n").data.length = L) :
    estimate_tokens (fileSection nm (strX N)) = (16 * (w + 1) + 3 * (L + N + 1)) / 24 := by
  rw [estimate_tokens, fileSection_data]
  have h0 : (strX N).data = List.replicate N 'x' := rfl
  rw [h0, estimateL_shape _ N hN _ w 0 hw he (by decide), hL]
  norm_num

theorem est_sec_a : estimate_tokens (fileSection "a" (strX 79956)) = 10000 := by
  rw [est_fileSection "a" 79956 (by norm_num) 4 17 (by decide) (by decide) (by decide)]

theorem est_sec_b : estimate_tokens (fileSection "b" (strX 39956)) = 5000 := by
  rw [est_fileSection "b" 39956 (by norm_num) 4 17 (by decide) (by decide) (by decide)]

theorem est_sec_c : estimate_tokens (fileSection "c" (strX 1519956)) = 190000 := by
  rw [est_fileSection "c" 1519956 (by norm_num) 4 17 (by decide) (by decide) (by decide)]

/-- The 100-token message of the Selective-mode scenario. -/
def msgC1 : String := strX 795

theorem est_msgC1 : estimate_tokens msgC1 = 100 := by
  rw [msgC1, estimate_strX 795 (by norm_num)]

/-! ## Invariants of the selective-inclusion loop -/

theorem selective_invariant (gc : String → Option String) (msg : String) :
    ∀ (files : List String) (tok : Nat),
      List.Sublist (selectiveAssemble gc msg files tok).included files ∧
      List.Sublist (selectiveAssemble gc msg files tok).skipped files ∧
      List.Sublist (selectiveAssemble gc msg files tok).missing files ∧
      files.length = (selectiveAssemble gc msg files tok).included.length +
        (selectiveAssemble gc msg files tok).skipped.length +
        (selectiveAssemble gc msg files tok).missing.length ∧
      (selectiveAssemble gc msg files tok).parts =
        (selectiveAssemble gc msg files tok).included.map
          (fun f => fileSection f ((gc f).getD "")) ∧
      (selectiveAssemble gc msg files tok).contextTokens =
        tok + ((selectiveAssemble gc msg files tok).parts.map estimate_tokens).sum ∧
      ((selectiveAssemble gc msg files tok).included = [] →
        (selectiveAssemble gc msg files tok).contextTokens = tok) ∧
      ((selectiveAssemble gc msg files tok).included ≠ [] →
        (selectiveAssemble gc msg files tok).contextTokens + estimate_tokens msg ≤ 190000) := by
  intro files
  induction files with
  | nil =>
    intro tok
    simp [selectiveAssemble]
  | cons f fs ih =>
    intro tok
    cases hgc : gc f with
    | none =>
      obtain ⟨h1, h2, h3, h4, h5, h6, h7, h8⟩ := ih tok
      simp only [selectiveAssemble, hgc]
      exact ⟨h1.cons _, h2.cons _, h3.cons₂ _, by simp [h4]; omega, h5, h6, h7, h8⟩
    | some content =>
      by_cases hif :
          tok + estimate_tokens (fileSection f content) + estimate_tokens msg > 190000
      · obtain ⟨h1, h2, h3, h4, h5, h6, h7, h8⟩ := ih tok
        simp only [selectiveAssemble, hgc, if_pos hif]
        exact ⟨h1.cons _, h2.cons₂ _, h3.cons _, by simp [h4]; omega, h5, h6, h7, h8⟩
      · obtain ⟨h1, h2, h3, h4, h5, h6, h7, h8⟩ :=
          ih (tok + estimate_tokens (fileSection f content))
        simp only [selectiveAssemble, hgc, if_neg hif]
        refine ⟨h1.cons₂ _, h2.cons _, h3.cons _, by simp [h4]; omega, ?_, ?_, ?_, ?_⟩
        · simp [h5, hgc]
        · simp only [List.map_cons, List.sum_cons]
          omega
        · simp
        · intro _
          rcases hin :
              (selectiveAssemble gc msg fs (tok + estimate_tokens (fileSection f content))).included
            with _ | ⟨g, gs⟩
          · have := h7 hin
            omega
          · exact h8 (by simp [hin])

/-- The file set of the Selective-mode scenario of the spec:
`[a (10k tokens), b (5k), c (190k)]`, realised as single-word contents whose
wrapped blocks estimate to exactly 10000, 5000 and 190000 tokens. -/
def gcC1 : String → Option String := fun f =>
  if f = "a" then some (strX 79956)
  else if f = "b" then some (strX 39956)
  else if f = "c" then some (strX 1519956)
  else none

theorem selC1_step3 :
    selectiveAssemble gcC1 msgC1 ["c"] 15000 = ⟨[], ["c"], [], 15000, []⟩ := by
  norm_num [selectiveAssemble, show gcC1 "c" = some (strX 1519956) from rfl,
    est_sec_c, est_msgC1]

theorem selC1_step2 :
    selectiveAssemble gcC1 msgC1 ["b", "c"] 10000 =
      ⟨["b"], ["c"], [], 15000, [fileSection "b" (strX 39956)]⟩ := by
  norm_num [selectiveAssemble, show gcC1 "b" = some (strX 39956) from rfl,
    show gcC1 "c" = some (strX 1519956) from rfl, est_sec_b, est_sec_c, est_msgC1]

theorem selC1_run :
    selectiveAssemble gcC1 msgC1 ["a", "b", "c"] 0 =
      ⟨["a", "b"], ["c"], [], 15000,
        [fileSection "a" (strX 79956), fileSection "b" (strX 39956)]⟩ := by
  have h2 := selC1_step2
  norm_num [selectiveAssemble, show gcC1 "a" = some (strX 79956) from rfl,
    est_sec_a, est_msgC1] at h2 ⊢
  norm_num [selectiveAssemble, show gcC1 "b" = some (strX 39956) from rfl,
    show gcC1 "c" = some (strX 1519956) from rfl, est_sec_b, est_sec_c, est_msgC1]

/-! ## Claim C1: Selective mode policy -/

/-- C1 (amended): in Selective mode the assembler appends each resolvable
file's wrapped block in the given order, recomputing the running total
after each; a file whose wrapped-block estimate would push the running
total plus the message estimate over 190,000 is skipped (reported by
filename) and the remaining files are still attempted, so every requested
file ends up included, skipped or missing, the context total is the sum of
the included blocks' estimates, and a nonempty inclusion keeps
`total + message ≤ 190000`.  In particular, for files of 10k, 5k and 190k
estimated tokens with a 100-token message, the first two are included, the
third is skipped and reported, with context-plus-message total exactly
15,100 tokens. -/
theorem c1_claim (gc : String → Option String) (msg : String) (files : List String) :
    List.Sublist (selectiveAssemble gc msg files 0).included files ∧
    List.Sublist (selectiveAssemble gc msg files 0).skipped files ∧
    List.Sublist (selectiveAssemble gc msg files 0).missing files ∧
    files.length = (selectiveAssemble gc msg files 0).included.length +
      (selectiveAssemble gc msg files 0).skipped.length +
      (selectiveAssemble gc msg files 0).missing.length ∧
    (selectiveAssemble gc msg files 0).parts =
      (selectiveAssemble gc msg files 0).included.map
        (fun f => fileSection f ((gc f).getD "")) ∧
    (selectiveAssemble gc msg files 0).contextTokens =
      ((selectiveAssemble gc msg files 0).parts.map estimate_tokens).sum ∧
    ((selectiveAssemble gc msg files 0).included ≠ [] →
      (selectiveAssemble gc msg files 0).contextTokens + estimate_tokens msg ≤ 190000) ∧
    selectiveAssemble gcC1 msgC1 ["a", "b", "c"] 0 =
      ⟨["a", "b"], ["c"], [], 15000,
        [fileSection "a" (strX 79956), fileSection "b" (strX 39956)]⟩ ∧
    estimate_tokens (fileSection "a" (strX 79956)) = 10000 ∧
    estimate_tokens (fileSection "b" (strX 39956)) = 5000 ∧
    estimate_tokens (fileSection "c" (strX 1519956)) = 190000 ∧
    15000 + estimate_tokens msgC1 = 15100 := by
  obtain ⟨h1, h2, h3, h4, h5, h6, _h7, h8⟩ := selective_invariant gc msg files 0
  exact ⟨h1, h2, h3, h4, h5, by simpa using h6, h8, selC1_run,
    est_sec_a, est_sec_b, est_sec_c, by rw [est_msgC1]⟩

theorem c1_witness :
    (selectiveAssemble (fun f => if f = "a" then some "hello" else none) "yo" ["a"] 0).included
      ≠ [] ∧
    (selectiveAssemble (fun f => if f = "a" then some "hello" else none) "yo" ["a"] 0).contextTokens
      + estimate_tokens "yo" ≤ 190000 :=
  ⟨by decide,
    (c1_claim (fun f => if f = "a" then some "hello" else none) "yo" ["a"]).2.2.2.2.2.2.1
      (by decide)⟩

/-- A single file whose wrapped block estimates to 191,000 tokens: over the
code's 190,000 cutoff, yet under the claimed
`200,000 - 2,000` budget. -/
def gcC1x : String → Option String := fun f =>
  if f = "a" then some (strX 1527956) else none

/-- C1 counterexample: the claim says a file is skipped only when the
running total plus the file, the message and the 2,000-token overhead
exceeds the 200,000 ceiling.  For a single requested file whose wrapped
block estimates to 191,000 tokens and an (estimated) 0-token message,
that bound is 193,000 ≤ 200,000, so the claim includes the file — but the
code compares against the bare constant 190,000 (line 803) and skips it. -/
theorem c1_counterexample :
    (selectiveAssemble gcC1x "hi" ["a"] 0).included = [] ∧
    (selectiveAssemble gcC1x "hi" ["a"] 0).skipped = ["a"] ∧
    (selectiveAssemble gcC1x "hi" ["a"] 0).contextTokens = 0 ∧
    estimate_tokens (fileSection "a" (strX 1527956)) + estimate_tokens "hi" + 2000 ≤ 200000 := by
  have hx : estimate_tokens (fileSection "a" (strX 1527956)) = 191000 := by
    rw [est_fileSection "a" 1527956 (by norm_num) 4 17 (by decide) (by decide) (by decide)]
  have hmsg : estimate_tokens "hi" = 0 := by decide
  refine ⟨?_, ?_, ?_, ?_⟩ <;>
    norm_num [selectiveAssemble, show gcC1x "a" = some (strX 1527956) from rfl, hx, hmsg]

/-! ## Claim C10: duplicates in the selective file list -/

/-- C10: the caller-supplied filename list is not deduplicated.  Whenever
every requested name resolves and the whole batch fits the budget, the
result includes exactly the requested list — duplicates and all — the
wrapped block of each occurrence is appended separately, and the running
total counts each occurrence.  Applied to a list where a filename appears
`k` times, its block is appended and counted `k` times, and the name
appears `k` times in the included-files report. -/
theorem c10_claim (gc : String → Option String) (msg : String) :
    ∀ (files : List String) (tok : Nat),
      (∀ f ∈ files, gc f ≠ none) →
      tok + (files.map (fun f => estimate_tokens (fileSection f ((gc f).getD "")))).sum
          + estimate_tokens msg ≤ 190000 →
      selectiveAssemble gc msg files tok =
        ⟨files, [], [],
          tok + (files.map (fun f => estimate_tokens (fileSection f ((gc f).getD "")))).sum,
          files.map (fun f => fileSection f ((gc f).getD ""))⟩ := by
  intro files
  induction files with
  | nil =>
    intro tok _ _
    simp [selectiveAssemble]
  | cons f fs ih =>
    intro tok hres hbud
    cases hgc : gc f with
    | none => exact absurd hgc (hres f (by simp))
    | some content =>
      have hcd : (gc f).getD "" = content := by simp [hgc]
      simp only [List.map_cons, List.sum_cons, hcd] at hbud
      have hif : ¬ (tok + estimate_tokens (fileSection f content)
          + estimate_tokens msg > 190000) := by omega
      have hrec := ih (tok + estimate_tokens (fileSection f content))
        (fun g hg => hres g (by simp [hg])) (by omega)
      simp only [selectiveAssemble, hgc, if_neg hif, hrec]
      simp [hcd]
      omega

theorem c10_witness :
    selectiveAssemble (fun f => if f = "a" then some "hello" else none) "yo" ["a", "a"] 0 =
      ⟨["a", "a"], [], [],
        0 + (["a", "a"].map (fun f =>
          estimate_tokens (fileSection f
            (((fun f => if f = "a" then some "hello" else none) f).getD "")))).sum,
        ["a", "a"].map (fun f =>
          fileSection f (((fun f => if f = "a" then some "hello" else none) f).getD ""))⟩ :=
  c10_claim (fun f => if f = "a" then some "hello" else none) "yo" ["a", "a"] 0
    (by decide) (by decide)

/-! ## Claim C2: All-files mode policy -/

theorem concatMapStr_data (f : α → String) (l : List α) :
    (concatMapStr f l).data = (l.map fun a => (f a).data).flatten := by
  induction l with
  | nil => rfl
  | cons a l ih => simp [concatMapStr, data_append, ih]

/-- The concrete all-files context prefix for project `p` with the single
file `a`, up to the file content. -/
def gpcPrefix : List Char :=
  ("Project: " ++ "p" ++ "\n" ++ eqLine ++ "\n" ++ "Files in this project:\n"
    ++ "\n--- File: " ++ "a" ++ " ---\n").data

theorem gpc_single_data (s : String) :
    (get_project_context "p" [("a", s)]).data = gpcPrefix ++ (s.data ++ ['\n']) := by
  simp [get_project_context, sortFiles, concatMapStr, fileSection, gpcPrefix, data_append,
    List.append_assoc, show "\n".data = ['\n'] from rfl]

theorem est_gpc_single (N : Nat) (hN : 0 < N) :
    estimate_tokens (get_project_context "p" [("a", strX N)]) =
      (16 * 12 + 3 * (112 + N + 1)) / 24 := by
  rw [estimate_tokens, gpc_single_data, show (strX N).data = List.replicate N 'x' from rfl,
    estimateL_shape _ N hN _ 11 0 (by decide) (by decide) (by decide),
    show gpcPrefix.length = 112 from by decide]
  norm_num

/-- C2 (amended): in All-files mode the assembled context wraps every file
of the set in a delimiter block naming it, in lexicographic filename
order; if the estimated context total plus the message estimate exceeds
the bare constant 190,000, `do_chat` returns the rejection outcome naming
the context token estimate, with no partial subset and no request — and
this rejection happens exactly under that condition. -/
theorem c2_claim (name : String) (gc : String → Option String)
    (files : List (String × String)) (msg : String) :
    (do_chat name gc files .allFiles msg =
        .rejectAllFiles (estimate_tokens (get_project_context name files))
      ↔ 190000 < estimate_tokens (get_project_context name files) + estimate_tokens msg) ∧
    (sortFiles files).Perm files ∧
    List.Sorted (· ≤ ·) ((sortFiles files).map Prod.fst) ∧
    (∀ p ∈ files, (fileSection p.1 p.2).data <:+: (get_project_context name files).data) := by
  refine ⟨?_, List.perm_insertionSort fileLe files, ?_, ?_⟩
  · by_cases h :
        190000 < estimate_tokens (get_project_context name files) + estimate_tokens msg
    · simp [do_chat, h]
    · simp only [do_chat, if_neg h, finalCheck]
      constructor
      · intro heq
        split at heq <;> simp at heq
      · intro hc
        exact absurd hc h
  · exact List.Pairwise.map Prod.fst (fun a b h => h)
      (List.sorted_insertionSort fileLe files)
  · intro p hp
    have hmem : (fileSection p.1 p.2).data ∈
        ((sortFiles files).map fun a => (fileSection a.1 a.2).data) :=
      List.mem_map_of_mem _ ((List.perm_insertionSort fileLe files).mem_iff.mpr hp)
    have hctx : (get_project_context name files).data =
        ("Project: " ++ name ++ "\n" ++ eqLine ++ "\n" ++ "Files in this project:\n").data
          ++ ((sortFiles files).map fun a => (fileSection a.1 a.2).data).flatten
          ++ (if files.isEmpty then "(No files in project yet)\n" else "").data := by
      simp [get_project_context, data_append, concatMapStr_data, List.append_assoc]
    rw [hctx]
    exact (List.infix_of_mem_flatten hmem).trans (List.infix_append _ _ _)

theorem c2_witness :
    (fileSection "a" "hello").data <:+: (get_project_context "p" [("a", "hello")]).data :=
  (c2_claim "p" (fun _ => none) [("a", "hello")] "hi").2.2.2 ("a", "hello") (by decide)

/-- C2 counterexample: a project whose single file makes the context
estimate to 191,000 tokens with an (estimated) 0-token message.  The
claim's rejection condition `total + 2000 > 200000` is not met
(193,000 ≤ 200,000), yet the code rejects because it compares the
context-plus-message estimate against the bare constant 190,000
(line 823), reporting the context estimate 191,000. -/
theorem c2_counterexample :
    do_chat "p" (fun _ => none) [("a", strX 1527823)] .allFiles "hi" =
      .rejectAllFiles 191000 ∧
    191000 + estimate_tokens "hi" + 2000 ≤ 200000 := by
  have h1 : estimate_tokens (get_project_context "p" [("a", strX 1527823)]) = 191000 := by
    rw [est_gpc_single 1527823 (by norm_num)]
  have hm : estimate_tokens "hi" = 0 := by decide
  constructor
  · norm_num [do_chat, h1, hm]
  · norm_num [hm]

/-! ## Claim C9: the final guard is unreachable in All-files mode -/

/-- C9: in All-files mode, whenever the initial budget check passes the
final "request too large" guard can never fire: the outcome is never
`tooLarge`, and a dispatched request carries exactly the context built by
`get_project_context` with final total `context + message + 2000`, which
the initial bound keeps at most 192,000 < 195,000. -/
theorem c9_claim (name : String) (gc : String → Option String)
    (files : List (String × String)) (msg : String) :
    isTooLarge (do_chat name gc files .allFiles msg) = false ∧
    (∀ ctx tt, do_chat name gc files .allFiles msg = .send ctx tt →
      ctx = get_project_context name files ∧
      tt = estimate_tokens (get_project_context name files) + estimate_tokens msg + 2000 ∧
      tt ≤ 192000) := by
  by_cases h :
      190000 < estimate_tokens (get_project_context name files) + estimate_tokens msg
  · constructor
    · simp [do_chat, h, isTooLarge]
    · intro ctx tt heq
      simp [do_chat, h] at heq
  · have hcond : ¬ (estimate_tokens (get_project_context name files)
        + estimate_tokens msg + 2000 > 195000) := by omega
    constructor
    · simp [do_chat, if_neg h, finalCheck, hcond, isTooLarge]
    · intro ctx tt heq
      simp only [do_chat, if_neg h, finalCheck] at heq
      rw [if_neg hcond] at heq
      obtain ⟨h1, h2⟩ := ChatOutcome.send.inj heq.symm
      refine ⟨h1, h2, ?_⟩
      omega

theorem c9_witness :
    get_project_context "p" ([] : List (String × String)) = get_project_context "p" [] ∧
    estimate_tokens (get_project_context "p" []) + estimate_tokens "hi" + 2000 =
      estimate_tokens (get_project_context "p" []) + estimate_tokens "hi" + 2000 ∧
    estimate_tokens (get_project_context "p" []) + estimate_tokens "hi" + 2000 ≤ 192000 :=
  (c9_claim "p" (fun _ => none) [] "hi").2 (get_project_context "p" [])
    (estimate_tokens (get_project_context "p" []) + estimate_tokens "hi" + 2000) (by decide)

/-! ## Claim C6: the final hard ceiling check -/

theorem finalCheck_spec (ctx : String) (ct : Nat) (msg : String) :
    (finalCheck ctx ct msg = .tooLarge (ct + estimate_tokens msg + 2000)
      ↔ 195000 < ct + estimate_tokens msg + 2000) ∧
    (∀ c tt, finalCheck ctx ct msg = .send c tt →
      tt = ct + estimate_tokens msg + 2000 ∧ tt ≤ 195000) ∧
    (∀ tt, finalCheck ctx ct msg = .tooLarge tt →
      195000 < tt ∧ tt = ct + estimate_tokens msg + 2000) := by
  by_cases h : 195000 < ct + estimate_tokens msg + 2000
  · refine ⟨by simp [finalCheck, h], ?_, ?_⟩
    · intro c tt heq
      simp [finalCheck, h] at heq
    · intro tt heq
      simp only [finalCheck] at heq
      rw [if_pos h] at heq
      have h2 := ChatOutcome.tooLarge.inj heq.symm
      omega
  · refine ⟨by simp [finalCheck, h], ?_, ?_⟩
    · intro c tt heq
      simp only [finalCheck] at heq
      rw [if_neg h] at heq
      have h2 := (ChatOutcome.send.inj heq.symm).2
      omega
    · intro tt heq
      simp only [finalCheck] at heq
      rw [if_neg h] at heq
      simp at heq

/-- C6 (amended): for every mode, after assembly the final total
`context_tokens + message_tokens + 2000` is checked once more, and the
operation fails with the "request too large" outcome — never reaching the
model boundary — exactly when the path reaches the final check and that
total exceeds the constant 195,000 (not the 200,000 ceiling); dually, any
request that is dispatched has final total at most 195,000. -/
theorem c6_claim (name : String) (gc : String → Option String)
    (files : List (String × String)) (mode : ChatMode) (msg : String) :
    (do_chat name gc files mode msg = .tooLarge (finalTotalOf name gc files mode msg)
      ↔ initialPasses name gc files mode msg = true ∧
        195000 < finalTotalOf name gc files mode msg) ∧
    (∀ ctx tt, do_chat name gc files mode msg = .send ctx tt → tt ≤ 195000) ∧
    (∀ tt, do_chat name gc files mode msg = .tooLarge tt → 195000 < tt) := by
  cases mode with
  | noContext =>
    obtain ⟨hiff, hsend, htoo⟩ := finalCheck_spec "" 0 msg
    refine ⟨?_, fun ctx tt heq => (hsend ctx tt heq).2, fun tt heq => (htoo tt heq).1⟩
    simpa [do_chat, finalTotalOf, contextTokensOf, initialPasses] using hiff
  | selective sel =>
    obtain ⟨hiff, hsend, htoo⟩ := finalCheck_spec
      (selectiveHeader name ++ concatMapStr id (selectiveAssemble gc msg sel 0).parts)
      (selectiveAssemble gc msg sel 0).contextTokens msg
    refine ⟨?_, fun ctx tt heq => (hsend ctx tt heq).2, fun tt heq => (htoo tt heq).1⟩
    simpa [do_chat, finalTotalOf, contextTokensOf, initialPasses] using hiff
  | allFiles =>
    by_cases hinit : 190000 <
        estimate_tokens (get_project_context name files) + estimate_tokens msg
    · refine ⟨?_, ?_, ?_⟩
      · constructor
        · intro heq
          simp [do_chat, hinit] at heq
        · rintro ⟨hpass, -⟩
          simp only [initialPasses, decide_eq_true_eq] at hpass
          omega
      · intro ctx tt heq
        simp [do_chat, hinit] at heq
      · intro tt heq
        simp [do_chat, hinit] at heq
    · obtain ⟨hiff, hsend, htoo⟩ := finalCheck_spec (get_project_context name files)
        (estimate_tokens (get_project_context name files)) msg
      have hpass : initialPasses name gc files .allFiles msg = true := by
        simp only [initialPasses, decide_eq_true_eq]
        omega
      refine ⟨?_, ?_, ?_⟩
      · rw [show do_chat name gc files .allFiles msg =
            finalCheck (get_project_context name files)
              (estimate_tokens (get_project_context name files)) msg from by
          simp [do_chat, hinit]]
        simpa [finalTotalOf, contextTokensOf, hpass] using hiff
      · intro ctx tt heq
        rw [show do_chat name gc files .allFiles msg =
            finalCheck (get_project_context name files)
              (estimate_tokens (get_project_context name files)) msg from by
          simp [do_chat, hinit]] at heq
        exact (hsend ctx tt heq).2
      · intro tt heq
        rw [show do_chat name gc files .allFiles msg =
            finalCheck (get_project_context name files)
              (estimate_tokens (get_project_context name files)) msg from by
          simp [do_chat, hinit]] at heq
        exact (htoo tt heq).1

theorem c6_witness : (2000 : Nat) ≤ 195000 :=
  (c6_claim "p" (fun _ => none) [] .noContext "hi").2.1 "" 2000 (by decide)

/-- C6 counterexample: with no context and a message estimating to 194,000
tokens, the final total is 196,000 ≤ 200,000, so per the claim the request
should not fail — but the code's final guard compares against 195,000
(line 845) and aborts with "request too large" before any model call. -/
theorem c6_counterexample :
    do_chat "p" (fun _ => none) [] .noContext (strX 1551995) = .tooLarge 196000 ∧
    196000 ≤ 200000 := by
  have hm : estimate_tokens (strX 1551995) = 194000 := by
    rw [estimate_strX _ (by norm_num)]
  constructor
  · norm_num [do_chat, finalCheck, hm]
  · norm_num

/-! ## Claim C3: the estimator formula -/

/-- Modelled from the claim wording: the estimator as
`round((word_count / 0.75 + char_count / 4) / 2)`, with `round` the usual
rounding of the exact rational value (at the counterexample input below
the value is not a half-integer, so every tie-breaking convention of
`round` agrees). -/
def claimEstimate (s : String) : ℤ :=
  round (((wordCountL s.data : ℚ) / 0.75 + ((s.data.length : ℚ)) / 4) / 2)

/-- C3 (amended): for every text, `estimate_tokens` equals the FLOOR
(Python `int(...)` truncation, not `round`) of
`(word_count / 0.75 + char_count / 4) / 2`, where `word_count` counts
whitespace-delimited tokens and `char_count` counts characters; the
estimate of the empty text is 0, and the result is a non-negative pure
function of the text. -/
theorem c3_claim (s : String) :
    estimate_tokens s =
      ⌊((wordCountL s.data : ℚ) / 0.75 + ((s.data.length : ℚ)) / 4) / 2⌋₊ ∧
    estimate_tokens "" = 0 ∧
    0 ≤ estimate_tokens s := by
  refine ⟨?_, by decide, Nat.zero_le _⟩
  have key : ((wordCountL s.data : ℚ) / 0.75 + ((s.data.length : ℚ)) / 4) / 2
      = ((16 * wordCountL s.data + 3 * s.data.length : ℕ) : ℚ) / 24 := by
    rw [show (0.75 : ℚ) = 3 / 4 by norm_num]
    push_cast
    field_simp
    ring
  rw [key, show (24 : ℚ) = ((24 : ℕ) : ℚ) by norm_num, Nat.floor_div_nat,
    Nat.floor_natCast]
  rfl

/-- C3 counterexample: on the two-character text `"ab"` (one word, two
characters) the exact value is `11/12 ≈ 0.9167`; the claim's `round`
yields 1, but the code's `int(...)` truncation yields 0. -/
theorem c3_counterexample :
    estimate_tokens "ab" = 0 ∧ claimEstimate "ab" = 1 := by
  constructor
  · decide
  · have h1 : wordCountL ("ab".data) = 1 := by decide
    have h2 : ("ab".data).length = 2 := by decide
    rw [claimEstimate, h1, h2]
    norm_num [round_eq]

/-! ## Claim C8: monotonicity of the estimator under pure extension -/

/-- C8: for non-empty `t2` extended by additional non-whitespace content
`r` into `t1`, the estimate never decreases: appending characters can only
increase the character count and the word count. -/
theorem c8_claim (t1 t2 : String) (r : List Char) (hne : t2.data ≠ [])
    (hr : r ≠ []) (hns : ∀ c ∈ r, pyIsSpace c = false) (heq : t1.data = t2.data ++ r) :
    estimate_tokens t2 ≤ estimate_tokens t1 := by
  simp only [estimate_tokens, heq]
  show (16 * wordCountL t2.data + 3 * t2.data.length) / 24 ≤
    (16 * wordCountL (t2.data ++ r) + 3 * (t2.data ++ r).length) / 24
  apply Nat.div_le_div_right
  have hw : wordCountL t2.data ≤ wordCountL (t2.data ++ r) := by
    unfold wordCountL
    rw [cwAux_append]
    exact Nat.le_add_right _ _
  have hl : t2.data.length ≤ (t2.data ++ r).length := by simp
  omega

theorem c8_witness : estimate_tokens "ab" ≤ estimate_tokens "abc" :=
  c8_claim "abc" "ab" ['c'] (by decide) (by decide) (by decide) (by decide)

/-! ## Artifact extraction (`ArtifactManager.extract_code_blocks`,
lines 580-602, and `ArtifactManager._extract_title`, lines 604-620) -/

/-- `\w` of Python's `re` module, restricted to ASCII: letters, digits and
underscore. -/
def isWordChar (c : Char) : Bool := c.isAlphanum || c = '_'

/-- The fence delimiter of the pattern `r'```(\w+)\n(.*?)```'`. -/
def fence : List Char := "```".data

/-- Locate the earliest occurrence of the closing fence, as the lazy
`(.*?)` followed by three backticks does: returns the body before the
fence and the remainder after it. -/
def findCloseAux : List Char → Option (List Char × List Char)
  | [] => none
  | c :: cs =>
    if (c :: cs).take 3 = fence then some ([], cs.drop 2)
    else
      match findCloseAux cs with
      | some (b, r) => some (c :: b, r)
      | none => none

/-- Attempt the regex `` ```(\w+)\n(.*?)``` `` anchored at the start of
`cs`: an opening fence, a non-empty greedy run of word characters (the
group `(\w+)` — the language tag is required, `\w` never matches `\n`, so
no backtracking arises), a newline, then the lazily shortest body up to a
closing fence.  Returns the language, the body and the remainder after
the match. -/
def matchAt (cs : List Char) : Option (String × String × List Char) :=
  if cs.take 3 = fence then
    if ((cs.drop 3).takeWhile isWordChar).isEmpty then none
    else
      if ((cs.drop 3).dropWhile isWordChar).head? = some '\n' then
        match findCloseAux ((cs.drop 3).dropWhile isWordChar).tail with
        | some (b, r) => some (String.mk ((cs.drop 3).takeWhile isWordChar), String.mk b, r)
        | none => none
      else none
  else none

/-- `re.finditer`: try the pattern at each position from left to right;
on a match, emit it and continue after its end (non-overlapping), else
advance one character.  The fuel argument is initialised with the input
length, which `scanAux_congr` below shows is always sufficient. -/
def scanAux : Nat → List Char → List (String × String)
  | 0, _ => []
  | _, [] => []
  | fuel + 1, c :: cs =>
    match matchAt (c :: cs) with
    | some (l, b, rest) => (l, b) :: scanAux fuel rest
    | none => scanAux fuel cs

/-- All `(language, body)` matches of `r'```(\w+)\n(.*?)```'` in document
order. -/
def scanBlocks (cs : List Char) : List (String × String) := scanAux cs.length cs

/-- `str.strip(chars)`-style trimming: drop matching characters from both
ends. -/
def stripWhile (p : Char → Bool) (cs : List Char) : List Char :=
  ((cs.dropWhile p).reverse.dropWhile p).reverse

/-- Python `str.strip()` (whitespace). -/
def pyStrip (cs : List Char) : List Char := stripWhile pyIsSpace cs

/-- Python `str.strip('# ')`. -/
def stripHashSpace (cs : List Char) : List Char :=
  stripWhile (fun c => c = '#' || c = ' ') cs

/-- Python `str.replace('_', ' ')`. -/
def replaceUnderscores (cs : List Char) : List Char :=
  cs.map fun c => if c = '_' then ' ' else c

/-- Python `str.title()` (ASCII): uppercase every letter that follows a
non-letter, lowercase the other letters. -/
def pyTitleAux : Bool → List Char → List Char
  | _, [] => []
  | prev, c :: cs =>
    (if c.isAlpha then (if prev then c.toLower else c.toUpper) else c) :: pyTitleAux c.isAlpha cs

def pyTitle (cs : List Char) : List Char := pyTitleAux false cs

/-- Attempt `kw\s+(\w+)` anchored at the start of `cs` (`\s+` greedy
cannot backtrack into `\w+` since the classes are disjoint). -/
def tryDefAt (kw : List Char) (cs : List Char) : Option (List Char) :=
  if cs.take kw.length = kw then
    if ((cs.drop kw.length).takeWhile pyIsSpace).isEmpty then none
    else
      if (((cs.drop kw.length).dropWhile pyIsSpace).takeWhile isWordChar).isEmpty then none
      else some (((cs.drop kw.length).dropWhile pyIsSpace).takeWhile isWordChar)
  else none

/-- `re.search(kw + r'\s+(\w+)', ...)`: first position, left to right,
where the pattern matches; returns the captured identifier. -/
def searchDef (kw : List Char) : List Char → Option (List Char)
  | [] => tryDefAt kw []
  | c :: cs =>
    match tryDefAt kw (c :: cs) with
    | some w => some w
    | none => searchDef kw cs

/-- The comment-or-ordinal fallback of `_extract_title` (lines 615-620):
if the first line of the stripped code starts with `#`, return it with
leading/trailing `#` and spaces stripped, underscores replaced by spaces
and title-cased; otherwise `Code_Artifact_<index+1>`. -/
def commentOrDefault (code : String) (index : Nat) : String :=
  if ((pyStrip code.data).takeWhile (fun c => c ≠ '\n')).head? = some '#' then
    String.mk (pyTitle (replaceUnderscores (stripHashSpace
      ((pyStrip code.data).takeWhile (fun c => c ≠ '\n')))))
  else
    "Code_Artifact_" ++ toString (index + 1)

/-- `ArtifactManager._extract_title`: for python, the first `class`
identifier, else the first `def` identifier; otherwise the comment or
ordinal fallback.  `index` is the 0-based index of the block among ALL
regex matches (the `enumerate` counter of line 588, which does not skip
discarded small blocks). -/
def _extract_title (code language : String) (index : Nat) : String :=
  if language = "python" then
    match searchDef ("class".data) code.data with
    | some w => String.mk w
    | none =>
      match searchDef ("def".data) code.data with
      | some w => String.mk w
      | none => commentOrDefault code index
  else commentOrDefault code index

/-- An artifact record as produced per block (the filename/timestamp
side effects of `create_artifact` are outside the extraction logic). -/
structure Artifact where
  title : String
  language : String
  content : String
deriving DecidableEq, Repr

/-- `ArtifactManager.extract_code_blocks`: enumerate all fenced matches,
skip those whose stripped body is shorter than 100 characters, and build
an artifact (title derived by `_extract_title`) from each survivor, in
document order. -/
def extract_code_blocks (response_text : String) : List Artifact :=
  (scanBlocks response_text.data).enum.filterMap fun p =>
    if (pyStrip p.2.2.data).length < 100 then none
    else some ⟨_extract_title p.2.2 p.2.1 p.1, p.2.1, p.2.2⟩

/-! ## Structural lemmas about the fence scanner -/

theorem findCloseAux_eq (cs : List Char) : ∀ (b r : List Char),
    findCloseAux cs = some (b, r) → cs = b ++ fence ++ r := by
  induction cs with
  | nil => intro b r h; simp [findCloseAux] at h
  | cons c cs ih =>
    intro b r h
    by_cases hf : (c :: cs).take 3 = fence
    · rw [findCloseAux, if_pos hf] at h
      obtain ⟨hb, hr⟩ := Prod.mk.inj (Option.some.inj h)
      subst hb
      subst hr
      calc c :: cs = (c :: cs).take 3 ++ (c :: cs).drop 3 := (List.take_append_drop _ _).symm
        _ = [] ++ fence ++ cs.drop 2 := by rw [hf]; rfl
    · rw [findCloseAux, if_neg hf] at h
      cases hfc : findCloseAux cs with
      | none => rw [hfc] at h; simp at h
      | some br =>
        obtain ⟨b', r'⟩ := br
        rw [hfc] at h
        simp only [Option.some.injEq, Prod.mk.injEq] at h
        obtain ⟨hb, hr⟩ := h
        subst hb
        subst hr
        simp [ih b' r' hfc, List.append_assoc]

theorem matchAt_eq (cs : List Char) (l b : String) (r : List Char)
    (h : matchAt cs = some (l, b, r)) :
    cs = fence ++ (l.data ++ ('\n' :: (b.data ++ (fence ++ r)))) ∧
    l.data ≠ [] ∧ (∀ c ∈ l.data, isWordChar c = true) := by
  rw [matchAt] at h
  by_cases hf : cs.take 3 = fence
  case neg => rw [if_neg hf] at h; simp at h
  rw [if_pos hf] at h
  by_cases hw : ((cs.drop 3).takeWhile isWordChar).isEmpty
  case pos => rw [if_pos hw] at h; simp at h
  rw [if_neg hw] at h
  by_cases hh : ((cs.drop 3).dropWhile isWordChar).head? = some '\n'
  case neg => rw [if_neg hh] at h; simp at h
  rw [if_pos hh] at h
  cases hfc : findCloseAux ((cs.drop 3).dropWhile isWordChar).tail with
  | none => rw [hfc] at h; simp at h
  | some br =>
    obtain ⟨b', r'⟩ := br
    rw [hfc] at h
    simp only [Option.some.injEq, Prod.mk.injEq] at h
    obtain ⟨hl, hb, hr⟩ := h
    have hcons : '\n' :: ((cs.drop 3).dropWhile isWordChar).tail
        = (cs.drop 3).dropWhile isWordChar :=
      List.cons_head?_tail hh
    refine ⟨?_, ?_, ?_⟩
    · calc cs = cs.take 3 ++ cs.drop 3 := (List.take_append_drop _ _).symm
        _ = fence ++ ((cs.drop 3).takeWhile isWordChar
              ++ (cs.drop 3).dropWhile isWordChar) := by
            rw [hf, List.takeWhile_append_dropWhile]
        _ = fence ++ (l.data ++ ('\n' :: (b.data ++ (fence ++ r)))) := by
            rw [← hcons, ← hl, ← hb, ← hr]
            simp [findCloseAux_eq _ b' r' hfc, List.append_assoc]
    · rw [← hl]
      simpa [List.isEmpty_iff] using hw
    · intro ch hch
      rw [← hl] at hch
      exact List.mem_takeWhile_imp hch

theorem matchAt_rest_length (cs : List Char) (l b : String) (r : List Char)
    (h : matchAt cs = some (l, b, r)) : r.length < cs.length := by
  obtain ⟨hdec, hne, -⟩ := matchAt_eq cs l b r h
  have hlen := congrArg List.length hdec
  have hpos : 0 < l.data.length := List.length_pos.mpr hne
  simp [fence] at hlen
  omega

theorem scanAux_congr : ∀ (f : Nat), ∀ (cs : List Char) (g : Nat),
    cs.length ≤ f → cs.length ≤ g → scanAux f cs = scanAux g cs := by
  intro f
  induction f with
  | zero =>
    intro cs g hf _
    have : cs = [] := List.eq_nil_of_length_eq_zero (Nat.le_zero.mp hf)
    subst this
    cases g <;> rfl
  | succ f ih =>
    intro cs g hf hg
    cases cs with
    | nil => cases g <;> rfl
    | cons c cs' =>
      cases g with
      | zero => simp at hg
      | succ g' =>
        cases hm : matchAt (c :: cs') with
        | some lbr =>
          obtain ⟨l, b, rest⟩ := lbr
          have hlt := matchAt_rest_length _ _ _ _ hm
          simp only [List.length_cons] at hf hg hlt
          simp only [scanAux, hm]
          rw [ih rest g' (by omega) (by omega)]
        | none =>
          simp only [List.length_cons] at hf hg
          simp only [scanAux, hm]
          exact ih cs' g' (by omega) (by omega)

theorem scanAux_eq_nil : ∀ (f : Nat) (cs : List Char),
    ¬ (fence <:+: cs.drop 3) → scanAux f cs = [] := by
  intro f
  induction f with
  | zero => intro cs _; cases cs <;> rfl
  | succ f ih =>
    intro cs hno
    cases cs with
    | nil => rfl
    | cons c cs' =>
      cases hm : matchAt (c :: cs') with
      | some lbr =>
        obtain ⟨l, b, rest⟩ := lbr
        obtain ⟨hdec, -, -⟩ := matchAt_eq _ _ _ _ hm
        exfalso
        apply hno
        have hdrop : (c :: cs').drop 3 = l.data ++ ('\n' :: (b.data ++ (fence ++ rest))) := by
          rw [hdec]
          have h3 : fence.length = 3 := by decide
          rw [← h3, List.drop_left]
        rw [hdrop]
        exact ⟨l.data ++ '\n' :: b.data, rest, by simp [List.append_assoc]⟩
      | none =>
        simp only [scanAux, hm]
        apply ih
        intro hinf
        apply hno
        have hsuf : cs'.drop 3 <:+ (c :: cs').drop 3 := by
          have h1 : (c :: cs').drop 3 = cs'.drop 2 := rfl
          have h2 : cs'.drop 3 = (cs'.drop 2).drop 1 := by
            rw [List.drop_drop]
          rw [h1, h2]
          exact List.drop_suffix _ _
        exact hinf.trans hsuf.isInfix

theorem mem_of_mem_enumFrom {α : Type _} : ∀ (l : List α) (n : Nat) (p : Nat × α),
    p ∈ l.enumFrom n → p.2 ∈ l := by
  intro l
  induction l with
  | nil => intro n p h; simp [List.enumFrom] at h
  | cons a l ih =>
    intro n p h
    simp only [List.enumFrom, List.mem_cons] at h
    rcases h with h | h
    · subst h; simp
    · exact List.mem_cons_of_mem _ (ih (n + 1) p h)

theorem scanAux_mem : ∀ (f : Nat) (cs : List Char) (l b : String),
    (l, b) ∈ scanAux f cs →
    (∃ pre post,
        cs = pre ++ (fence ++ (l.data ++ ('\n' :: (b.data ++ (fence ++ post)))))) ∧
      l.data ≠ [] ∧ (∀ c ∈ l.data, isWordChar c = true) := by
  intro f
  induction f with
  | zero => intro cs l b h; cases cs <;> simp [scanAux] at h
  | succ f ih =>
    intro cs l b h
    cases cs with
    | nil => simp [scanAux] at h
    | cons c cs' =>
      cases hm : matchAt (c :: cs') with
      | some lbr =>
        obtain ⟨l', b', rest⟩ := lbr
        simp only [scanAux, hm] at h
        rcases List.mem_cons.mp h with heq | hmem
        · obtain ⟨hl, hb⟩ := Prod.mk.inj heq
          subst hl
          subst hb
          obtain ⟨hdec, hne, hword⟩ := matchAt_eq _ _ _ _ hm
          exact ⟨⟨[], rest, by simpa using hdec⟩, hne, hword⟩
        · obtain ⟨⟨pre', post', hdec'⟩, hne, hword⟩ := ih rest l b hmem
          obtain ⟨hdec, -, -⟩ := matchAt_eq _ _ _ _ hm
          refine ⟨⟨fence ++ (l'.data ++ ('\n' :: (b'.data ++ (fence ++ pre')))), post', ?_⟩,
            hne, hword⟩
          rw [hdec, hdec']
          simp [List.append_assoc]
      | none =>
        simp only [scanAux, hm] at h
        obtain ⟨⟨pre', post', hdec'⟩, hne, hword⟩ := ih cs' l b h
        exact ⟨⟨c :: pre', post', by rw [hdec']; rfl⟩, hne, hword⟩

/-! ## Claims C4, C5, C7: artifact extraction -/

/-- A 150-character python body declaring `class Foo`. -/
def pyBody : String := "class Foo:\n" ++ strX 139

def pyExample : String := "```python\n" ++ pyBody ++ "```"

def smallExample : String := "```python\n" ++ strX 39 ++ "\n```"

/-- A fenced block with the optional language tag omitted and a
150-character body. -/
def untaggedExample : String := "```" ++ "\n" ++ strX 150 ++ "```"

/-- A discarded 3-character block followed by a surviving 150-character
block. -/
def c5Example : String := "```txt\nhi\n```" ++ ("```txt\n" ++ strX 150 ++ "```")

def blkPy : String := "```python\n" ++ strX 150 ++ "```"

/-- Two valid 150-character blocks followed by an unterminated trailing
fence. -/
def c7Example : String := blkPy ++ blkPy ++ "```python\n" ++ strX 150

/-- C4 (amended): extraction finds exactly the non-overlapping fenced
segments of the form triple-backtick, REQUIRED language tag (one or more
word characters — not optional), newline, body, triple-backtick, in
document order, discarding bodies shorter than 100 characters after
trimming: every produced artifact has a stripped body of at least 100
characters and its language and body occur as such a fenced segment in
the response; a single 150-character block tagged `python` yields exactly
one artifact and a 40-character block yields zero. -/
theorem c4_claim :
    (∀ (resp : String) (a : Artifact), a ∈ extract_code_blocks resp →
      100 ≤ (pyStrip a.content.data).length ∧
      ∃ pre post, resp.data =
        pre ++ (fence ++ (a.language.data ++ ('\n' :: (a.content.data ++ (fence ++ post)))))) ∧
    extract_code_blocks pyExample = [⟨"Foo", "python", pyBody⟩] ∧
    extract_code_blocks smallExample = [] := by
  refine ⟨?_, by decide, by decide⟩
  intro resp a ha
  rw [extract_code_blocks] at ha
  obtain ⟨p, hp, hpa⟩ := List.mem_filterMap.mp ha
  obtain ⟨i, l, b⟩ := p
  by_cases hlen : (pyStrip b.data).length < 100
  · rw [if_pos hlen] at hpa
    simp at hpa
  · rw [if_neg hlen] at hpa
    have haa := Option.some.inj hpa
    subst haa
    have hp' : (i, (l, b)) ∈ List.enumFrom 0 (scanBlocks resp.data) := hp
    have hmem : (l, b) ∈ scanBlocks resp.data := mem_of_mem_enumFrom _ 0 _ hp'
    rw [scanBlocks] at hmem
    obtain ⟨⟨pre, post, hdec⟩, -, -⟩ := scanAux_mem _ _ _ _ hmem
    exact ⟨show 100 ≤ (pyStrip b.data).length by omega, ⟨pre, post, hdec⟩⟩

theorem c4_witness :
    100 ≤ (pyStrip (Artifact.mk "Foo" "python" pyBody).content.data).length ∧
    ∃ pre post, pyExample.data =
      pre ++ (fence ++ ((Artifact.mk "Foo" "python" pyBody).language.data ++
        ('\n' :: ((Artifact.mk "Foo" "python" pyBody).content.data ++ (fence ++ post))))) :=
  c4_claim.1 pyExample ⟨"Foo", "python", pyBody⟩ (by decide)

/-- C4 counterexample: the claim calls the language tag optional, but the
pattern `r'```(\w+)\n(.*?)```'` requires a non-empty tag: a fenced block
of the claimed form with the tag omitted and a 150-character body
(stripped length 150 ≥ 100) yields zero artifacts instead of one. -/
theorem c4_counterexample :
    extract_code_blocks untaggedExample = [] ∧
    untaggedExample = "```" ++ "\n" ++ strX 150 ++ "```" ∧
    (strX 150).length = 150 ∧
    100 ≤ (pyStrip (strX 150).data).length :=
  ⟨by decide, rfl, by decide, by decide⟩

/-- C5 (amended): the title of a surviving segment is derived as: (a) for
the language `python`, the identifier of the first `class` declaration if
any, else of the first `def` declaration (class declarations take priority
over earlier function declarations); (b) else, if the first line of the
stripped body starts with `#`, that line with leading/trailing `#` and
spaces stripped, underscores replaced by spaces and title-cased; (c) else
`Code_Artifact_<i+1>` where `i` is the 0-based position among ALL matched
segments, including discarded ones — not among the survivors. -/
theorem c5_claim :
    (∀ (code : String) (idx : Nat) (w : List Char),
      searchDef ("class".data) code.data = some w →
      _extract_title code "python" idx = String.mk w) ∧
    (∀ (code lang : String) (idx : Nat), lang ≠ "python" →
      ((pyStrip code.data).takeWhile (fun c => c ≠ '\n')).head? ≠ some '#' →
      _extract_title code lang idx = "Code_Artifact_" ++ toString (idx + 1)) ∧
    _extract_title "def foo(x):\n    return x\nclass Bar:\n    pass" "python" 0 = "Bar" ∧
    _extract_title "# my_title\nx = 1" "javascript" 3 = "My Title" := by
  refine ⟨?_, ?_, by decide, by decide⟩
  · intro code idx w h
    simp [_extract_title, h]
  · intro code lang idx hlang hhead
    rw [_extract_title, if_neg hlang, commentOrDefault, if_neg hhead]

theorem c5_witness : _extract_title "hello" "txt" 4 = "Code_Artifact_" ++ toString (4 + 1) :=
  c5_claim.2.1 "hello" "txt" 4 (by decide) (by decide)

/-- C5 counterexample: in a response whose first matched block is
discarded as too small, the first SURVIVING block falls back to the title
`Code_Artifact_2` (its `enumerate` index among all matches is 1), not
`Code_Artifact_1` as the claim's "1-based position among the surviving
segments" requires. -/
theorem c5_counterexample :
    extract_code_blocks c5Example = [⟨"Code_Artifact_2", "txt", strX 150⟩] ∧
    (extract_code_blocks c5Example).length = 1 ∧
    "Code_Artifact_2" ≠ "Code_Artifact_1" :=
  ⟨by decide, by decide, by decide⟩

/-- C7: extraction is total and lenient on malformed fences: an opening
fence never followed by another fence (an unterminated fence at
end-of-input) is simply not matched and contributes no artifact, and a
response with two valid blocks plus an unterminated trailing fence yields
exactly the two artifacts, in document order. -/
theorem c7_claim :
    (∀ tail : List Char, ¬ (fence <:+: tail) →
      extract_code_blocks (String.mk (fence ++ tail)) = []) ∧
    extract_code_blocks c7Example =
      [⟨"Code_Artifact_1", "python", strX 150⟩,
        ⟨"Code_Artifact_2", "python", strX 150⟩] := by
  refine ⟨?_, by decide⟩
  intro tail hno
  have hscan : scanBlocks (String.mk (fence ++ tail)).data = [] := by
    rw [scanBlocks]
    apply scanAux_eq_nil
    have hdrop : List.drop 3 (fence ++ tail) = tail := by
      have h3 : fence.length = 3 := by decide
      rw [← h3, List.drop_left]
    rw [show (String.mk (fence ++ tail)).data = fence ++ tail from rfl, hdrop]
    exact hno
  rw [extract_code_blocks, hscan]
  rfl

theorem c7_witness : extract_code_blocks (String.mk (fence ++ "python\nabc".data)) = [] :=
  c7_claim.1 ("python\nabc".data) (by decide)
